import Mathlib

/-!
# Error-propagation engine of `pages/4_Error_Analysis.py` — a shallow embedding

This file embeds the error-propagation kernel of the IBChemIA repository
(`src/pages/4_Error_Analysis.py`) and proves/refutes the frozen claims about it.

The page offers two propagation paths:

* the **Basic Operations** branch (lines 242–329): five closed-form rows over two
  Python floats `A`, `B` (or `A` and an exponent `n`), computed with plain Python
  arithmetic and `math.sqrt`, with *no* `try/except` around the branch;
* the **Complex Function** branch (lines 331–439): the user's expression string is
  parsed by `sympy.sympify`, its free symbols are listed sorted by name
  (line 346), a binding store in `st.session_state.error_variables` is reconciled
  (lines 352–358), `st.columns(len(variables))` lays out one column per variable
  (line 361), and on the button press (lines 381–436, wrapped in an inner
  `try/except`) the nominal value is `expr.subs(...)`, each symbolic derivative
  `diff(expr, var)` is evaluated at the same bindings, the squared terms are
  accumulated, and `math.sqrt` of the sum is the propagated error.  An outer
  `try/except` (lines 344, 438–439) wraps the whole branch and shows
  `"Error parsing expression: ..."` for anything that escapes.

Modelling conventions:

* Python floats are idealised as rationals `ℚ`; `math.sqrt` values are recovered
  as `Real.sqrt` of a stored rational radicand (the square of the propagated
  uncertainty), since real square roots are not computable.
* sympy's numeric evaluation is modelled by the value domain `SymVal` with the
  absorbing elements `zoo` (complex infinity, produced by `q / 0` for `q ≠ 0`)
  and `nan` (produced by `0 * zoo`, `zoo + zoo`, and anything touching `nan`).
  `float()` of `zoo` raises `TypeError`; `float()` of `nan` is the float `nan`.
* the expression language is the algebraic fragment the spec fixes
  (constants, variables, `+ - * / ^` with integer exponents); symbolic
  differentiation implements the standard elementary rules the spec names.
-/

/-- sympy numeric values reached by substituting rational bindings into an
algebraic expression: an ordinary number, `zoo` (complex infinity) or `nan`. -/
inductive SymVal where
  | num (q : ℚ)
  | zoo
  | nan
deriving DecidableEq, Repr

namespace SymVal

/-- sympy addition on numeric values: `zoo + zoo = nan`, `nan` absorbs. -/
def symAdd : SymVal → SymVal → SymVal
  | num a, num b => num (a + b)
  | num _, zoo => zoo
  | zoo, num _ => zoo
  | zoo, zoo => nan
  | nan, _ => nan
  | _, nan => nan

/-- sympy multiplication on numeric values: `0 * zoo = nan`, `nan` absorbs. -/
def symMul : SymVal → SymVal → SymVal
  | num a, num b => num (a * b)
  | num a, zoo => if a = 0 then nan else zoo
  | zoo, num b => if b = 0 then nan else zoo
  | zoo, zoo => zoo
  | nan, _ => nan
  | _, nan => nan

/-- sympy integer powers of a numeric value: `0 ** k = zoo` for negative `k`
(`1/0` is complex infinity), `zoo ** k = 0` for negative `k`, `zoo ** 0 = 1`. -/
def symPowz : SymVal → ℤ → SymVal
  | num a, k => if a = 0 ∧ k < 0 then zoo else num (a ^ k)
  | zoo, k => if k < 0 then num 0 else if k = 0 then num 1 else zoo
  | nan, _ => nan

/-- The Python comparison `result != 0` on a sympy value: `zoo` and `nan`
both compare unequal to `0`. -/
def ne0 : SymVal → Bool
  | num q => q ≠ 0
  | zoo => true
  | nan => true

end SymVal

/-- A Python exception class raised while turning sympy values into floats or
while computing with plain Python floats. -/
inductive PyExn where
  | typeError
  | valueError
  | zeroDivisionError
deriving DecidableEq, Repr

/-- The value of a Python float that arose from a rational computation or a
propagated `nan`.  For floats produced by `math.sqrt` the payload `q` of
`fnum q` stores the *radicand*, so the float's value is `Real.sqrt q`. -/
inductive PyFloat where
  | fnum (q : ℚ)
  | fnan
deriving DecidableEq, Repr

/-- Python `float(x)` on a sympy value (line 411 / line 419): numbers convert,
`nan` converts to the float `nan`, `zoo` raises `TypeError`. -/
def pyFloatOf : SymVal → Except PyExn PyFloat
  | SymVal.num q => .ok (.fnum q)
  | SymVal.nan => .ok .fnan
  | SymVal.zoo => .error .typeError

/-- `math.sqrt(error_squared_sum)` (line 404) applied to a sympy value:
`zoo` raises `TypeError` (during `float()` conversion), the float `nan` is
returned for `nan`, a negative number raises `ValueError`, and a non-negative
number `q` yields the float `Real.sqrt q`, represented by its radicand. -/
def mathSqrtSym : SymVal → Except PyExn PyFloat
  | SymVal.num q => if q < 0 then .error .valueError else .ok (.fnum q)
  | SymVal.nan => .ok .fnan
  | SymVal.zoo => .error .typeError

/-- Python's string comparison, used by `sorted(..., key=lambda x: x.name)`
(line 346): codepoint-wise lexicographic order on the character lists. -/
def lexLe : List Char → List Char → Bool
  | [], _ => true
  | _ :: _, [] => false
  | c :: cs, d :: ds => if c = d then lexLe cs ds else c < d

/-- `a <= b` for Python strings. -/
def strLe (a b : String) : Bool := lexLe a.toList b.toList

/-- Insert a name into an already sorted list of names. -/
def insertName (s : String) : List String → List String
  | [] => [s]
  | t :: ts => if strLe s t then s :: t :: ts else t :: insertName s ts

/-- Python's `sorted` on a list of names: insertion sort by `strLe`. -/
def sortNames (l : List String) : List String := l.foldr insertName []

/-- The algebraic expression tree of the spec (§3, §9): numeric constants,
named variables, sum, difference, product, quotient, and integer powers. -/
inductive Expression where
  | const (q : ℚ)
  | var (name : String)
  | add (a b : Expression)
  | sub (a b : Expression)
  | mul (a b : Expression)
  | div (a b : Expression)
  | powz (a : Expression) (k : ℤ)
deriving DecidableEq, Repr

namespace Expression

/-- The free variable names of an expression in syntactic order, possibly with
duplicates; `expr.free_symbols` is this list viewed as a set. -/
def freeSymbols : Expression → List String
  | const _ => []
  | var n => [n]
  | add a b => freeSymbols a ++ freeSymbols b
  | sub a b => freeSymbols a ++ freeSymbols b
  | mul a b => freeSymbols a ++ freeSymbols b
  | div a b => freeSymbols a ++ freeSymbols b
  | powz a _ => freeSymbols a

/-- `sorted(list(expr.free_symbols), key=lambda x: x.name)` (line 346): the
free variable names, de-duplicated and sorted ascending by name. -/
def variablesOf (e : Expression) : List String :=
  sortNames (freeSymbols e).dedup

/-- `expr.subs(subs_dict)` (line 385): substitute every variable by its bound
value and evaluate numerically with sympy's arithmetic.  `a - b` is evaluated
as `a + (-1) * b` and `a / b` as `a * b ** (-1)`, exactly as sympy represents
these operations internally. -/
def subs (e : Expression) (val : String → ℚ) : SymVal :=
  match e with
  | const q => .num q
  | var n => .num (val n)
  | add a b => SymVal.symAdd (subs a val) (subs b val)
  | sub a b => SymVal.symAdd (subs a val) (SymVal.symMul (.num (-1)) (subs b val))
  | mul a b => SymVal.symMul (subs a val) (subs b val)
  | div a b => SymVal.symMul (subs a val) (SymVal.symPowz (subs b val) (-1))
  | powz a k => SymVal.symPowz (subs a val) k

/-- `diff(expr, var)` (line 392): exact symbolic differentiation by the
standard elementary rules the spec names in §4.3 Step 2 — linearity for sums
and differences, the product rule, the quotient rule and the power rule with
chain rule for nested expressions. -/
def diff (e : Expression) (v : String) : Expression :=
  match e with
  | const _ => const 0
  | var n => const (if n = v then 1 else 0)
  | add a b => add (diff a v) (diff b v)
  | sub a b => sub (diff a v) (diff b v)
  | mul a b => add (mul (diff a v) b) (mul a (diff b v))
  | div a b => div (sub (mul (diff a v) b) (mul a (diff b v))) (powz b 2)
  | powz a k => mul (mul (const k) (powz a (k - 1))) (diff a v)

end Expression

/-- Outcome of the Complex Function button handler (lines 382–436): either the
inner `except` fired and `"Error in calculation: ..."` was shown, or the page
displayed `nominal ± propagated` with the propagated uncertainty carried as the
radicand of its square, together with whether a percentage error was shown. -/
inductive CalcOutcome where
  | calcError
  | displayed (nominal : PyFloat) (errSqSum : PyFloat) (pctShown : Bool)
deriving DecidableEq, Repr

/-- `error_squared_sum` (lines 388–401): one squared term
`(diff(expr, var).subs(subs_dict) * uncertainty) ** 2` per free variable, in
sorted variable order, accumulated from `0` with sympy addition. -/
def errSqSum (e : Expression) (val unc : String → ℚ) : SymVal :=
  (e.variablesOf).foldl
    (fun acc v =>
      SymVal.symAdd acc
        (SymVal.symPowz (SymVal.symMul ((e.diff v).subs val) (.num (unc v))) 2))
    (.num 0)

/-- The rest of the handler, applied to the evaluated nominal result and
accumulated squared sum: `math.sqrt` (line 404), the `result != 0` gate for the
percentage error (line 410, with `float(result)` on line 411), and the display
of the result (line 419) — a raised exception is caught by the inner `except`
(lines 435–436). -/
def finishPropagation (result errSq : SymVal) : CalcOutcome :=
  match mathSqrtSym errSq with
  | .error _ => .calcError
  | .ok errF =>
    if result.ne0 then
      match pyFloatOf result with
      | .error _ => .calcError
      | .ok nomF => .displayed nomF errF true
    else
      match pyFloatOf result with
      | .error _ => .calcError
      | .ok nomF => .displayed nomF errF false

/-- The Complex Function propagation handler (lines 382–436): the nominal
result by substitution, the accumulated `error_squared_sum`, and the finishing
steps above. -/
def runPropagation (e : Expression) (val unc : String → ℚ) : CalcOutcome :=
  finishPropagation (e.subs val) (errSqSum e val unc)

/-- One entry of `st.session_state.error_variables`: a bound value and its
absolute uncertainty (both Python floats). -/
structure Binding where
  value : ℚ
  uncertainty : ℚ
deriving DecidableEq, Repr

/-- The default binding `{"value": 0.0, "uncertainty": 0.0}` (lines 353, 358). -/
def Binding.default : Binding := ⟨0, 0⟩

/-- The binding-store reconciliation of lines 352–358: if the store is empty it
is rebuilt with default bindings for the parsed variables; otherwise every
parsed variable missing from the store is appended with a default binding.
Names absent from `names` are left in the store untouched.  The store is the
Python dict in insertion order, modelled as an association list. -/
def reconcile (existing : List (String × Binding)) (names : List String) :
    List (String × Binding) :=
  let base := if existing.isEmpty then names.map (fun n => (n, Binding.default))
    else existing
  names.foldl
    (fun acc n => if (acc.lookup n).isSome then acc else acc ++ [(n, Binding.default)])
    base

/-- The bound value of a variable as read back from the store (lines 367–369,
384); after reconciliation every parsed variable has an entry. -/
def valueIn (store : List (String × Binding)) (n : String) : ℚ :=
  ((store.lookup n).getD Binding.default).value

/-- The bound uncertainty of a variable as read back from the store
(lines 371–374, 398). -/
def uncertaintyIn (store : List (String × Binding)) (n : String) : ℚ :=
  ((store.lookup n).getD Binding.default).uncertainty

/-- What the Error Analysis page ends up showing for one interaction:

* `parseErrorShown` — the outer `except` (lines 438–439) fired and
  `"Error parsing expression: ..."` was rendered;
* `calcErrorShown` — the inner `except` (lines 435–436) fired and
  `"Error in calculation: ..."` was rendered;
* `resultShown` — the Complex Function branch displayed `nominal ± propagated`
  (propagated uncertainty carried as the radicand of its square) and possibly a
  percentage error;
* `basicShown` — the Basic Operations branch displayed `result ± propagated`
  (again with the squared uncertainty stored) and possibly a percentage error;
* `unableShown` — the Basic Operations branch rendered
  `"Unable to calculate result or error. Check your inputs."` (line 329);
* `awaitingInput` — no calculation was requested;
* `uncaughtException` — an exception escaped the page script (no surrounding
  `try/except`), aborting the page run with a traceback. -/
inductive PageOutcome where
  | parseErrorShown
  | calcErrorShown
  | resultShown (nominal : PyFloat) (errSqSum : PyFloat) (pctShown : Bool)
  | basicShown (result : ℚ) (uncSq : ℚ) (pctShown : Bool)
  | unableShown
  | awaitingInput
  | uncaughtException (exn : PyExn)
deriving DecidableEq, Repr

/-- The Complex Function branch (lines 344–439) after a successful parse: the
variable list is computed (line 346), the store is reconciled (lines 352–358),
then `st.columns(len(variables))` (line 361) raises `StreamlitAPIException`
when the variable list is empty — an exception the outer `except` at line 438
catches, so the page shows the parse-error message.  Otherwise, if the button
was pressed (line 381 also requires a non-empty variable list), the propagation
handler runs on the reconciled store. -/
def runComplexPage (e : Expression) (store : List (String × Binding))
    (pressed : Bool) : PageOutcome :=
  let vars := e.variablesOf
  let store' := reconcile store vars
  if vars.isEmpty then .parseErrorShown
  else if pressed then
    match runPropagation e (valueIn store') (uncertaintyIn store') with
    | .calcError => .calcErrorShown
    | .displayed nomF errF pct => .resultShown nomF errF pct
  else .awaitingInput

/-- The operation chosen in the Basic Operations selectbox (lines 244–245). -/
inductive BasicOp where
  | addB
  | subB
  | mulB
  | divB
  | powB
deriving DecidableEq, Repr

/-- Python `value_a ** power_n` (line 306) for a float base and an integer
exponent: raising `0.0` to a negative power raises `ZeroDivisionError`. -/
def pyPow (a : ℚ) (n : ℤ) : Except PyExn ℚ :=
  if a = 0 ∧ n < 0 then .error .zeroDivisionError else .ok (a ^ n)

/-- The Basic Operations branch of the calculator (lines 261–329), which has no
surrounding `try/except`: a raised exception escapes the page
script uncaught.  On success the branch either displays `result ± propagated`
— with the squared propagated uncertainty stored, and a percentage error iff
the result is nonzero (lines 318–327) — or reports that it is unable to
calculate (line 329) when the operation's guard set `result` or
`propagated_error` to `None`. -/
def runBasicPage (op : BasicOp) (value_a uncertainty_a value_b uncertainty_b : ℚ)
    (power_n : ℤ) : PageOutcome :=
  match op with
  | .addB =>
    let result := value_a + value_b
    .basicShown result (uncertainty_a ^ 2 + uncertainty_b ^ 2) (decide (result ≠ 0))
  | .subB =>
    let result := value_a - value_b
    .basicShown result (uncertainty_a ^ 2 + uncertainty_b ^ 2) (decide (result ≠ 0))
  | .mulB =>
    let result := value_a * value_b
    if value_a ≠ 0 ∧ value_b ≠ 0 then
      let relSq := (uncertainty_a / |value_a|) ^ 2 + (uncertainty_b / |value_b|) ^ 2
      .basicShown result (result ^ 2 * relSq) (decide (result ≠ 0))
    else .unableShown
  | .divB =>
    if value_b ≠ 0 then
      let result := value_a / value_b
      if value_a ≠ 0 then
        let relSq := (uncertainty_a / |value_a|) ^ 2 + (uncertainty_b / |value_b|) ^ 2
        .basicShown result (result ^ 2 * relSq) (decide (result ≠ 0))
      else .unableShown
    else .unableShown
  | .powB =>
    match pyPow value_a power_n with
    | .error exn => .uncaughtException exn
    | .ok result =>
      if value_a ≠ 0 then
        let rel := |(power_n : ℚ)| * (uncertainty_a / |value_a|)
        .basicShown result (result ^ 2 * rel ^ 2) (decide (result ≠ 0))
      else .unableShown

/-- A token of the expression language accepted by `sympify(expression)`
(line 345): Python lexing of numbers, identifiers, operators and parentheses,
with `^` converted to `**` by sympy's default `convert_xor` transformation. -/
inductive Tok where
  | tnum (q : ℚ)
  | tid (s : String)
  | tplus
  | tminus
  | tstar
  | tslash
  | tpow
  | tlp
  | trp
  | tcomma
deriving DecidableEq, Repr

/-- A character that may appear in a Python identifier. -/
def isIdentChar (c : Char) : Bool := c.isAlpha || c.isDigit || c = '_'

/-- The natural number denoted by a list of decimal digit characters. -/
def digitsVal (ds : List Char) : ℕ := ds.foldl (fun a c => 10 * a + (c.toNat - 48)) 0

/-- The rational value of the numeric literal `ds . fs`. -/
def litVal (ds fs : List Char) : ℚ :=
  (digitsVal ds : ℚ) + (digitsVal fs : ℚ) / (10 : ℚ) ^ fs.length

/-- Python tokenisation of the expression string: spaces are skipped, numeric
literals may have a fractional part, identifiers start with a letter or
underscore, and any other character is a syntax error (`none`). -/
def lexChars : ℕ → List Char → Option (List Tok)
  | 0, _ => none
  | _, [] => some []
  | f + 1, c :: cs =>
    if c = ' ' then lexChars f cs
    else if c = '(' then (lexChars f cs).map (Tok.tlp :: ·)
    else if c = ')' then (lexChars f cs).map (Tok.trp :: ·)
    else if c = ',' then (lexChars f cs).map (Tok.tcomma :: ·)
    else if c = '+' then (lexChars f cs).map (Tok.tplus :: ·)
    else if c = '-' then (lexChars f cs).map (Tok.tminus :: ·)
    else if c = '/' then (lexChars f cs).map (Tok.tslash :: ·)
    else if c = '^' then (lexChars f cs).map (Tok.tpow :: ·)
    else if c = '*' then
      match cs with
      | '*' :: cs' => (lexChars f cs').map (Tok.tpow :: ·)
      | _ => (lexChars f cs).map (Tok.tstar :: ·)
    else if c.isDigit || c = '.' then
      let ds := (c :: cs).takeWhile Char.isDigit
      let r1 := (c :: cs).dropWhile Char.isDigit
      match r1 with
      | '.' :: r2 =>
        let fs := r2.takeWhile Char.isDigit
        let r3 := r2.dropWhile Char.isDigit
        if ds.isEmpty ∧ fs.isEmpty then none
        else (lexChars f r3).map (Tok.tnum (litVal ds fs) :: ·)
      | _ => (lexChars f r1).map (Tok.tnum (litVal ds []) :: ·)
    else if c.isAlpha || c = '_' then
      let ns := (c :: cs).takeWhile isIdentChar
      let r1 := (c :: cs).dropWhile isIdentChar
      (lexChars f r1).map (Tok.tid (String.mk ns) :: ·)
    else none

/-- The expression tree produced by `sympify`: the algebraic operators together
with unary negation and applied functions — sympy happily accepts `sin(x)` or
any `f(x, y)` and represents it as an applied (possibly undefined) function. -/
inductive PTree where
  | num (q : ℚ)
  | pvar (s : String)
  | padd (a b : PTree)
  | psub (a b : PTree)
  | pmul (a b : PTree)
  | pdiv (a b : PTree)
  | ppow (a b : PTree)
  | pneg (a : PTree)
  | pcall (f : String) (args : List PTree)

/-- Recursive-descent reading of Python's expression grammar restricted to the
tokens above, at the precedence Python gives them: `+ -` below `* /`, unary
minus below `**`, `**` right-associative with a possibly signed exponent.
The `ℕ` argument is recursion fuel; the wrapper supplies enough for any
token list. -/
def parseSum : ℕ → List Tok → Option (PTree × List Tok)
  | 0, _ => none
  | f + 1, ts =>
    match parseTerm f ts with
    | none => none
    | some (a, r) => parseSumRest f a r
where
  /-- remaining `+ term` / `- term` steps of a sum, left-associative -/
  parseSumRest : ℕ → PTree → List Tok → Option (PTree × List Tok)
    | 0, _, _ => none
    | f + 1, acc, Tok.tplus :: r =>
      match parseTerm f r with
      | none => none
      | some (b, r2) => parseSumRest f (PTree.padd acc b) r2
    | f + 1, acc, Tok.tminus :: r =>
      match parseTerm f r with
      | none => none
      | some (b, r2) => parseSumRest f (PTree.psub acc b) r2
    | _ + 1, acc, ts => some (acc, ts)
  /-- a product of unary factors, left-associative -/
  parseTerm : ℕ → List Tok → Option (PTree × List Tok)
    | 0, _ => none
    | f + 1, ts =>
      match parseUnary f ts with
      | none => none
      | some (a, r) => parseTermRest f a r
  /-- remaining `* unary` / `/ unary` steps of a product -/
  parseTermRest : ℕ → PTree → List Tok → Option (PTree × List Tok)
    | 0, _, _ => none
    | f + 1, acc, Tok.tstar :: r =>
      match parseUnary f r with
      | none => none
      | some (b, r2) => parseTermRest f (PTree.pmul acc b) r2
    | f + 1, acc, Tok.tslash :: r =>
      match parseUnary f r with
      | none => none
      | some (b, r2) => parseTermRest f (PTree.pdiv acc b) r2
    | _ + 1, acc, ts => some (acc, ts)
  /-- a factor with leading unary signs -/
  parseUnary : ℕ → List Tok → Option (PTree × List Tok)
    | 0, _ => none
    | f + 1, Tok.tminus :: r =>
      match parseUnary f r with
      | none => none
      | some (a, r2) => some (PTree.pneg a, r2)
    | f + 1, Tok.tplus :: r => parseUnary f r
    | f + 1, ts => parsePower f ts
  /-- an atom with an optional right-associative `**` exponent -/
  parsePower : ℕ → List Tok → Option (PTree × List Tok)
    | 0, _ => none
    | f + 1, ts =>
      match parseAtom f ts with
      | none => none
      | some (a, Tok.tpow :: r) =>
        match parseUnary f r with
        | none => none
        | some (b, r2) => some (PTree.ppow a b, r2)
      | some (a, r) => some (a, r)
  /-- a literal, a variable, a function call, or a parenthesised sum -/
  parseAtom : ℕ → List Tok → Option (PTree × List Tok)
    | 0, _ => none
    | _ + 1, Tok.tnum q :: r => some (PTree.num q, r)
    | f + 1, Tok.tid s :: Tok.tlp :: r =>
      match parseArgs f r with
      | none => none
      | some (args, r2) => some (PTree.pcall s args, r2)
    | _ + 1, Tok.tid s :: r => some (PTree.pvar s, r)
    | f + 1, Tok.tlp :: r =>
      match parseSum f r with
      | none => none
      | some (a, Tok.trp :: r2) => some (a, r2)
      | some _ => none
    | _ + 1, _ => none
  /-- comma-separated call arguments up to the closing parenthesis -/
  parseArgs : ℕ → List Tok → Option (List PTree × List Tok)
    | 0, _ => none
    | f + 1, ts =>
      match parseSum f ts with
      | none => none
      | some (a, Tok.tcomma :: r) =>
        match parseArgs f r with
        | none => none
        | some (args, r2) => some (a :: args, r2)
      | some (a, Tok.trp :: r) => some ([a], r)
      | some _ => none

/-- The typed error raised for text that does not parse; it carries the
offending text, as the page's message `"Error parsing expression: {e}. ..."`
(line 439) carries the text via `SympifyError`'s message. -/
structure ParseError where
  text : String
deriving DecidableEq, Repr

/-- `sympify(expression)` (line 345) on this fragment: tokenise, read a full
expression consuming every token, and fail atomically otherwise. -/
def sympify (text : String) : Except ParseError PTree :=
  match lexChars (text.length + 1) text.toList with
  | none => .error ⟨text⟩
  | some ts =>
    match parseSum (6 * (ts.length + 1)) ts with
    | some (t, []) => .ok t
    | _ => .error ⟨text⟩

mutual

/-- Free variable names of a parsed tree, with duplicates; function names are
not free symbols, but their arguments' variables are. -/
def PTree.freeP : PTree → List String
  | .num _ => []
  | .pvar s => [s]
  | .padd a b => PTree.freeP a ++ PTree.freeP b
  | .psub a b => PTree.freeP a ++ PTree.freeP b
  | .pmul a b => PTree.freeP a ++ PTree.freeP b
  | .pdiv a b => PTree.freeP a ++ PTree.freeP b
  | .ppow a b => PTree.freeP a ++ PTree.freeP b
  | .pneg a => PTree.freeP a
  | .pcall _ args => PTree.freePs args

/-- Free variable names of a list of argument trees. -/
def PTree.freePs : List PTree → List String
  | [] => []
  | t :: ts => PTree.freeP t ++ PTree.freePs ts

end

namespace PTree

/-- The sorted, de-duplicated variable list of line 346 for a parsed tree. -/
def variablesP (t : PTree) : List String := sortNames t.freeP.dedup

/-- The algebraic expressions among the parsed trees: negation is sympy's
`Mul(-1, x)`, and an integer-constant exponent becomes an integer power.
Applied functions and non-integer exponents fall outside the algebraic
fragment the evaluator embedding covers. -/
def toExpr : PTree → Option Expression
  | num q => some (.const q)
  | pvar s => some (.var s)
  | padd a b => do pure (.add (← toExpr a) (← toExpr b))
  | psub a b => do pure (.sub (← toExpr a) (← toExpr b))
  | pmul a b => do pure (.mul (← toExpr a) (← toExpr b))
  | pdiv a b => do pure (.div (← toExpr a) (← toExpr b))
  | ppow a (num q) => if q.den = 1 then do pure (.powz (← toExpr a) q.num) else none
  | ppow a (pneg (num q)) => if q.den = 1 then do pure (.powz (← toExpr a) (-q.num)) else none
  | ppow _ _ => none
  | pneg a => do pure (.mul (.const (-1)) (← toExpr a))
  | pcall _ _ => none

end PTree

/-- The rational payload of a numeric sympy value (`0` for `zoo`/`nan`). -/
def SymVal.numOr0 : SymVal → ℚ
  | .num q => q
  | .zoo => 0
  | .nan => 0

/-- Whether a sympy value is an ordinary number. -/
def SymVal.isNum : SymVal → Bool
  | .num _ => true
  | .zoo => false
  | .nan => false

/-- The percentage error `propagated_error / abs(float(result)) * 100`
(line 411) shown when the displayed result `q` is nonzero, with `s` the
radicand of the propagated uncertainty. -/
noncomputable def percentageValue (s q : ℚ) : ℝ :=
  Real.sqrt (s : ℝ) / |(q : ℝ)| * 100

/-- The two-variable expression corresponding to a Basic Operations row:
`A + B`, `A - B`, `A * B`, `A / B`, or `A ^ n` (§4.4 of the spec). -/
def exprOfOp : BasicOp → ℤ → Expression
  | .addB, _ => .add (.var "A") (.var "B")
  | .subB, _ => .sub (.var "A") (.var "B")
  | .mulB, _ => .mul (.var "A") (.var "B")
  | .divB, _ => .div (.var "A") (.var "B")
  | .powB, n => .powz (.var "A") n

/-- Bindings of the two operand variables `A` and `B` to given rationals. -/
def envAB (a b : ℚ) : String → ℚ :=
  fun v => if v = "A" then a else if v = "B" then b else 0

/-- `lexLe` is total: any two character lists compare one way or the other. -/
theorem lexLe_total : ∀ as bs : List Char, lexLe as bs = true ∨ lexLe bs as = true := by
  intro as
  induction as with
  | nil => intro bs; left; rfl
  | cons c cs ih =>
    intro bs
    cases bs with
    | nil => right; rfl
    | cons d ds =>
      by_cases hcd : c = d
      · subst hcd
        rcases ih ds with h | h
        · left; simpa [lexLe] using h
        · right; simpa [lexLe] using h
      · rcases lt_or_gt_of_ne hcd with h | h
        · left; simp [lexLe, hcd, h]
        · right; simp [lexLe, Ne.symm hcd, h]

/-- `strLe` is total. -/
theorem strLe_total (a b : String) : strLe a b = true ∨ strLe b a = true :=
  lexLe_total a.toList b.toList

/-- Inserting into a list keeps the elements, as a permutation. -/
theorem insertName_perm (s : String) :
    ∀ l : List String, List.Perm (insertName s l) (s :: l) := by
  intro l
  induction l with
  | nil => simp [insertName]
  | cons t ts ih =>
    by_cases h : strLe s t
    · simp [insertName, h]
    · simpa [insertName, h] using ((ih.cons t).trans (List.Perm.swap s t ts))

/-- `sortNames` permutes its input. -/
theorem sortNames_perm : ∀ l : List String, List.Perm (sortNames l) l := by
  intro l
  induction l with
  | nil => exact List.Perm.refl _
  | cons t ts ih =>
    exact (insertName_perm t (sortNames ts)).trans (ih.cons t)

/-- Inserting into a list sorted by adjacent comparisons keeps it sorted. -/
theorem insertName_chain (s : String) :
    ∀ l : List String, l.Chain' (fun a b => strLe a b = true) →
      (insertName s l).Chain' (fun a b => strLe a b = true) := by
  intro l
  induction l with
  | nil => intro _; simp [insertName]
  | cons t ts ih =>
    intro hc
    by_cases h : strLe s t
    · rw [insertName, if_pos h]
      exact List.chain'_cons.mpr ⟨h, hc⟩
    · have hts : ts.Chain' (fun a b => strLe a b = true) := hc.tail
      have hrec := ih hts
      have hst : strLe t s = true := by
        rcases strLe_total s t with h' | h'
        · exact absurd h' h
        · exact h'
      rw [insertName, if_neg h]
      cases ts with
      | nil => simp [insertName, hst]
      | cons u us =>
        have htu : strLe t u = true := (List.chain'_cons.mp hc).1
        by_cases h2 : strLe s u
        · rw [show insertName s (u :: us) = s :: u :: us from by simp [insertName, h2]]
          exact List.chain'_cons.mpr ⟨hst, List.chain'_cons.mpr ⟨h2, hts⟩⟩
        · rw [show insertName s (u :: us) = u :: insertName s us from by
            simp [insertName, h2]] at hrec ⊢
          exact List.chain'_cons.mpr ⟨htu, hrec⟩

/-- `sortNames` sorts: adjacent elements of the output are in order. -/
theorem sortNames_chain (l : List String) :
    (sortNames l).Chain' (fun a b => strLe a b = true) := by
  induction l with
  | nil => simp [sortNames]
  | cons t ts ih => exact insertName_chain t (sortNames ts) ih

/-- `sortNames` preserves freedom from duplicates. -/
theorem sortNames_nodup {l : List String} (h : l.Nodup) : (sortNames l).Nodup :=
  (sortNames_perm l).nodup_iff.mpr h

/-- Membership in the sorted list is membership in the original list. -/
theorem mem_sortNames {v : String} {l : List String} : v ∈ sortNames l ↔ v ∈ l :=
  (sortNames_perm l).mem_iff

@[simp]
theorem SymVal.symAdd_num_num (a b : ℚ) :
    SymVal.symAdd (.num a) (.num b) = .num (a + b) := rfl

@[simp]
theorem SymVal.symMul_num_num (a b : ℚ) :
    SymVal.symMul (.num a) (.num b) = .num (a * b) := rfl

@[simp]
theorem SymVal.symPowz_num_two (a : ℚ) :
    SymVal.symPowz (.num a) 2 = .num (a ^ 2) := by
  simp only [SymVal.symPowz]
  rw [if_neg (by simp)]
  rw [show ((2 : ℤ)) = ((2 : ℕ) : ℤ) from rfl, zpow_natCast]

@[simp]
theorem SymVal.numOr0_num (q : ℚ) : SymVal.numOr0 (.num q) = q := rfl

/-- Accumulating squared terms from a non-number never recovers a number:
`zoo` and `nan` are absorbing for sympy's addition. -/
theorem foldl_symAdd_not_num (f : String → SymVal) :
    ∀ (l : List String) (acc : SymVal), acc.isNum = false →
      (l.foldl (fun a v => SymVal.symAdd a (f v)) acc).isNum = false := by
  intro l
  induction l with
  | nil => intro acc h; simpa using h
  | cons v vs ih =>
    intro acc h
    have hstep : (SymVal.symAdd acc (f v)).isNum = false := by
      cases acc with
      | num q => simp [SymVal.isNum] at h
      | zoo => cases f v <;> simp [SymVal.symAdd, SymVal.isNum]
      | nan => cases f v <;> simp [SymVal.symAdd, SymVal.isNum]
    simpa using ih _ hstep

/-- If the `error_squared_sum` accumulation of line 401 ends in a number, every
term was a number and the result is the rational sum of the terms. -/
theorem foldl_symAdd_num (f : String → SymVal) :
    ∀ (l : List String) (c s : ℚ),
      l.foldl (fun a v => SymVal.symAdd a (f v)) (.num c) = .num s →
      (∀ v ∈ l, (f v).isNum = true) ∧
      s = c + (l.map (fun v => (f v).numOr0)).sum := by
  intro l
  induction l with
  | nil =>
    intro c s h
    simp only [List.foldl_nil] at h
    injection h with h
    simp [h.symm]
  | cons v vs ih =>
    intro c s h
    simp only [List.foldl_cons] at h
    cases hfv : f v with
    | num q =>
      rw [hfv] at h
      simp only [SymVal.symAdd_num_num] at h
      obtain ⟨hall, hsum⟩ := ih (c + q) s h
      refine ⟨?_, ?_⟩
      · intro w hw
        rcases List.mem_cons.mp hw with rfl | hw
        · simp [hfv, SymVal.isNum]
        · exact hall w hw
      · simp only [List.map_cons, List.sum_cons, hfv, SymVal.numOr0_num]
        rw [hsum]; ring
    | zoo =>
      exfalso
      rw [hfv] at h
      have : (SymVal.symAdd (.num c) .zoo).isNum = false := by
        simp [SymVal.symAdd, SymVal.isNum]
      have hnn := foldl_symAdd_not_num f vs _ this
      rw [h] at hnn
      simp [SymVal.isNum] at hnn
    | nan =>
      exfalso
      rw [hfv] at h
      have : (SymVal.symAdd (.num c) .nan).isNum = false := by
        simp [SymVal.symAdd, SymVal.isNum]
      have hnn := foldl_symAdd_not_num f vs _ this
      rw [h] at hnn
      simp [SymVal.isNum] at hnn

/-- A squared propagation term that is a number comes from a numeric evaluated
derivative, and is the square of derivative times uncertainty. -/
theorem term_num (X : SymVal) (u p : ℚ)
    (h : SymVal.symPowz (SymVal.symMul X (.num u)) 2 = .num p) :
    ∃ x, X = .num x ∧ p = (x * u) ^ 2 := by
  cases X with
  | num x =>
    refine ⟨x, rfl, ?_⟩
    simp only [SymVal.symMul_num_num, SymVal.symPowz_num_two] at h
    injection h with h
    exact h.symm
  | zoo =>
    exfalso
    by_cases hu : u = 0 <;>
      simp [SymVal.symMul, SymVal.symPowz, hu] at h
  | nan =>
    exfalso
    simp [SymVal.symMul, SymVal.symPowz] at h

/-- Whether a page outcome is an uncaught exception aborting the script. -/
def PageOutcome.isUncaught : PageOutcome → Bool
  | .uncaughtException _ => true
  | _ => false

/-- Uncertainties of the two operand variables `A` and `B`. -/
def uncAB (ua ub : ℚ) : String → ℚ :=
  fun v => if v = "A" then ua else if v = "B" then ub else 0

/-- Inversion of the finishing steps: a displayed numeric result means the
nominal value and the squared sum were exactly those numbers, and the
percentage error was shown exactly when the nominal value is nonzero. -/
theorem finishPropagation_displayed {result errSq : SymVal} {q s : ℚ} {pct : Bool}
    (h : finishPropagation result errSq = .displayed (.fnum q) (.fnum s) pct) :
    result = .num q ∧ errSq = .num s ∧ pct = decide (q ≠ 0) := by
  cases errSq with
  | num u =>
    by_cases hu : u < 0
    · simp [finishPropagation, mathSqrtSym, hu] at h
    · cases result with
      | num r =>
        by_cases hr : r = 0
        · simp [finishPropagation, mathSqrtSym, hu, SymVal.ne0, hr, pyFloatOf] at h
          obtain ⟨h1, h2, h3⟩ := h
          subst h1; subst h2
          simp [hr, h3.symm]
        · simp [finishPropagation, mathSqrtSym, hu, SymVal.ne0, hr, pyFloatOf] at h
          obtain ⟨h1, h2, h3⟩ := h
          subst h1; subst h2
          simp [hr, h3.symm]
      | zoo => simp [finishPropagation, mathSqrtSym, hu, SymVal.ne0, pyFloatOf] at h
      | nan =>
        by_cases hnz : SymVal.ne0 .nan <;>
          simp [finishPropagation, mathSqrtSym, hu, SymVal.ne0, pyFloatOf] at h
  | zoo => simp [finishPropagation, mathSqrtSym] at h
  | nan =>
    cases result with
    | num r =>
      by_cases hr : r = 0 <;>
        simp [finishPropagation, mathSqrtSym, SymVal.ne0, hr, pyFloatOf] at h
    | zoo => simp [finishPropagation, mathSqrtSym, SymVal.ne0, pyFloatOf] at h
    | nan => simp [finishPropagation, mathSqrtSym, SymVal.ne0, pyFloatOf] at h

/-- A numeric squared propagation term has a numeric evaluated derivative. -/
theorem term_isNum {X : SymVal} {u : ℚ}
    (h : (SymVal.symPowz (SymVal.symMul X (.num u)) 2).isNum = true) :
    ∃ x, X = .num x := by
  cases X with
  | num x => exact ⟨x, rfl⟩
  | zoo =>
    exfalso
    by_cases hu : u = 0 <;>
      simp [SymVal.symMul, SymVal.symPowz, hu, SymVal.isNum] at h
  | nan =>
    exfalso
    simp [SymVal.symMul, SymVal.symPowz, SymVal.isNum] at h

/-- Looking a name up in an appended association list. -/
theorem lookup_append (l₁ l₂ : List (String × Binding)) (n : String) :
    (l₁ ++ l₂).lookup n =
      match l₁.lookup n with
      | some b => some b
      | none => l₂.lookup n := by
  induction l₁ with
  | nil => simp
  | cons p ps ih =>
    obtain ⟨k, b⟩ := p
    by_cases h : n = k
    · subst h; simp [List.lookup]
    · have hb : (n == k) = false := beq_eq_false_iff_ne.mpr h
      simp [List.lookup, hb, ih]

/-- Looking a name up in the default store built from a name list
(the dict comprehension of line 353). -/
theorem lookup_map_default (names : List String) (n : String) :
    (names.map (fun m => (m, Binding.default))).lookup n =
      if n ∈ names then some Binding.default else none := by
  induction names with
  | nil => simp
  | cons m ms ih =>
    by_cases h : n = m
    · subst h; simp [List.lookup]
    · have hb : (n == m) = false := beq_eq_false_iff_ne.mpr h
      simp [List.lookup, hb, ih, h]

/-- Looking a name up after the reconciliation loop of lines 356–358: an
existing entry wins; otherwise a name in the new list gets the default
binding; all other names are absent. -/
theorem lookup_reconcile_foldl (names : List String) :
    ∀ (acc : List (String × Binding)) (n : String),
      (names.foldl
        (fun acc n =>
          if (acc.lookup n).isSome then acc else acc ++ [(n, Binding.default)])
        acc).lookup n =
      match acc.lookup n with
      | some b => some b
      | none => if n ∈ names then some Binding.default else none := by
  induction names with
  | nil =>
    intro acc n
    simp only [List.foldl_nil, List.not_mem_nil, if_false]
    cases acc.lookup n <;> rfl
  | cons m ms ih =>
    intro acc n
    simp only [List.foldl_cons]
    by_cases hm : (acc.lookup m).isSome
    · rw [if_pos hm]
      rw [ih acc n]
      by_cases hnm : n = m
      · subst hnm
        obtain ⟨b, hb⟩ := Option.isSome_iff_exists.mp hm
        simp [hb]
      · simp [hnm]
    · rw [if_neg hm]
      rw [ih (acc ++ [(m, Binding.default)]) n]
      rw [lookup_append]
      by_cases hnm : n = m
      · subst hnm
        have hnone : acc.lookup n = none := Option.not_isSome_iff_eq_none.mp hm
        simp [hnone, List.lookup]
      · have hb : (n == m) = false := beq_eq_false_iff_ne.mpr hnm
        have h1 : ([(m, Binding.default)].lookup n : Option Binding) = none := by
          simp [List.lookup, hb]
        rw [h1]
        cases hacc : acc.lookup n with
        | some b => simp
        | none => simp [hnm]

/-- C1: for every expression with bindings giving each free variable a value
and a non-negative uncertainty, when the Complex Function evaluator succeeds
(it displays a numeric nominal value `q` and a numeric squared sum `s`, so the
propagated uncertainty is `math.sqrt s`), the propagated uncertainty equals
the square root of the sum over every free variable of (the symbolic partial
derivative evaluated at the bound values, times that variable's uncertainty)
squared, and the nominal result equals the expression evaluated at the bound
values. -/
theorem claim_C1 (e : Expression) (val unc : String → ℚ)
    (hunc : ∀ v, 0 ≤ unc v) (q s : ℚ) (pct : Bool)
    (h : runPropagation e val unc = .displayed (.fnum q) (.fnum s) pct) :
    e.subs val = .num q ∧
    ∃ t : String → ℚ,
      (∀ v ∈ e.variablesOf, (e.diff v).subs val = .num (t v)) ∧
      Real.sqrt (s : ℝ) =
        Real.sqrt (((e.variablesOf.map (fun v => (t v * unc v) ^ 2)).sum : ℚ) : ℝ) := by
  obtain ⟨hres, hsum, hpct⟩ := finishPropagation_displayed h
  refine ⟨hres, ?_⟩
  rw [errSqSum] at hsum
  obtain ⟨hall, hs⟩ := foldl_symAdd_num
    (fun v => SymVal.symPowz (SymVal.symMul ((e.diff v).subs val) (.num (unc v))) 2)
    e.variablesOf 0 s hsum
  refine ⟨fun v => ((e.diff v).subs val).numOr0, ?_, ?_⟩
  · intro v hv
    obtain ⟨x, hx⟩ := term_isNum (hall v hv)
    simp [hx]
  · have hmap : (e.variablesOf.map
        (fun v => (SymVal.symPowz (SymVal.symMul ((e.diff v).subs val)
          (.num (unc v))) 2).numOr0)) =
        (e.variablesOf.map
          (fun v => (((e.diff v).subs val).numOr0 * unc v) ^ 2)) := by
      apply List.map_congr_left
      intro v hv
      obtain ⟨x, hx⟩ := term_isNum (hall v hv)
      simp [hx]
    rw [hs, hmap]
    norm_num

/-- Witness for C1 at the spec's multi-variable example: `x*y` with
`x = 2 ± 0.1` and `y = 3 ± 0.2` displays `6 ± math.sqrt(1/4)`. -/
theorem claim_C1_witness :
    (∀ v, (0:ℚ) ≤ (fun w => if w = "x" then (1:ℚ)/10 else if w = "y" then 1/5 else 0) v) ∧
    runPropagation (.mul (.var "x") (.var "y"))
      (fun w => if w = "x" then 2 else if w = "y" then 3 else 0)
      (fun w => if w = "x" then (1:ℚ)/10 else if w = "y" then 1/5 else 0) =
      .displayed (.fnum 6) (.fnum (1/4)) true ∧
    ((Expression.mul (.var "x") (.var "y")).subs
        (fun w => if w = "x" then 2 else if w = "y" then 3 else 0) = .num 6 ∧
      ∃ t : String → ℚ,
        (∀ v ∈ (Expression.mul (.var "x") (.var "y")).variablesOf,
          ((Expression.mul (.var "x") (.var "y")).diff v).subs
            (fun w => if w = "x" then 2 else if w = "y" then 3 else 0) = .num (t v)) ∧
        Real.sqrt ((1/4 : ℚ) : ℝ) =
          Real.sqrt ((((Expression.mul (.var "x") (.var "y")).variablesOf.map
            (fun v => (t v *
              (if v = "x" then (1:ℚ)/10 else if v = "y" then 1/5 else 0)) ^ 2)).sum : ℚ) : ℝ)) := by
  have hu : ∀ v, (0:ℚ) ≤ (fun w => if w = "x" then (1:ℚ)/10 else if w = "y" then 1/5 else 0) v := by
    intro v
    dsimp only
    split_ifs <;> norm_num
  have hev : runPropagation (.mul (.var "x") (.var "y"))
      (fun w => if w = "x" then 2 else if w = "y" then 3 else 0)
      (fun w => if w = "x" then (1:ℚ)/10 else if w = "y" then 1/5 else 0) =
      .displayed (.fnum 6) (.fnum (1/4)) true := by
    simp only [runPropagation, finishPropagation, errSqSum, Expression.variablesOf,
      Expression.freeSymbols, Expression.subs, Expression.diff, sortNames, insertName,
      List.dedup, strLe, lexLe, List.foldr, List.foldl]
    simp [SymVal.symAdd, SymVal.symMul, SymVal.symPowz, SymVal.ne0, mathSqrtSym, pyFloatOf]
    norm_num
  exact ⟨hu, hev, claim_C1 _ _ _ hu 6 (1/4) true hev⟩

@[simp]
theorem SymVal.symAdd_nan_left (x : SymVal) : SymVal.symAdd .nan x = .nan := by
  cases x <;> rfl

@[simp]
theorem SymVal.symAdd_nan_right (x : SymVal) : SymVal.symAdd x .nan = .nan := by
  cases x <;> rfl

@[simp]
theorem SymVal.symMul_nan_left (x : SymVal) : SymVal.symMul .nan x = .nan := by
  cases x <;> rfl

@[simp]
theorem SymVal.symMul_nan_right (x : SymVal) : SymVal.symMul x .nan = .nan := by
  cases x <;> rfl

@[simp]
theorem SymVal.symPowz_nan (k : ℤ) : SymVal.symPowz .nan k = .nan := rfl

/-- C2 (counterexample): reconciling the store `{x: (2, 0.1), y: (3, 0.2)}`
against the new variable set `{x}` (the expression changed from `x*y` to
`x+1`) leaves the store unchanged — in particular `y` is still present,
contradicting the claim that names outside the new set are removed. -/
theorem claim_C2_counterexample :
    reconcile [("x", ⟨2, 1/10⟩), ("y", ⟨3, 1/5⟩)] ["x"] =
      [("x", ⟨2, 1/10⟩), ("y", ⟨3, 1/5⟩)] ∧
    (reconcile [("x", ⟨2, 1/10⟩), ("y", ⟨3, 1/5⟩)] ["x"]).lookup "y" =
      some ⟨3, 1/5⟩ :=
  ⟨rfl, rfl⟩

/-- C2 (amended): reconciliation keeps the existing binding for each name in
the new set, creates a `0.0/0.0` default for each genuinely new name, and
RETAINS (does not remove) every binding whose name is not in the new set;
after changing `x*y` to `x+1`, `x` keeps its prior value/uncertainty and `y`
also remains in the store. -/
theorem claim_C2 :
    (∀ (existing : List (String × Binding)) (names : List String) (n : String),
      (reconcile existing names).lookup n =
        match existing.lookup n with
        | some b => some b
        | none => if n ∈ names then some Binding.default else none) ∧
    (reconcile [("x", ⟨2, 1/10⟩), ("y", ⟨3, 1/5⟩)] ["x"]).lookup "x" =
      some ⟨2, 1/10⟩ ∧
    (reconcile [("x", ⟨2, 1/10⟩), ("y", ⟨3, 1/5⟩)] ["x"]).lookup "y" =
      some ⟨3, 1/5⟩ := by
  refine ⟨?_, rfl, rfl⟩
  intro existing names n
  simp only [reconcile]
  by_cases he : existing.isEmpty
  · rw [if_pos he]
    rw [lookup_reconcile_foldl]
    have hex : existing.lookup n = none := by
      rw [List.isEmpty_iff.mp he]
      rfl
    rw [hex, lookup_map_default]
    by_cases hn : n ∈ names <;> simp [hn]
  · rw [if_neg he]
    exact lookup_reconcile_foldl names existing n

/-- C3 (counterexample): with a = 0 and b = 0 (and zero uncertainties) the
Complex Function evaluation of `a/b` does NOT fail: sympy's substitution
yields `nan`, every squared term is `nan`, `math.sqrt(nan)` is the float
`nan`, and `nan != 0` is true — so the page silently displays
`Result: nan ± nan` and `Percentage Error: nan`, contradicting the claim
that any binding of `a` with `b = 0` raises a typed evaluation error and
never silently shows NaN. -/
theorem claim_C3_counterexample :
    runPropagation (.div (.var "a") (.var "b")) (fun _ => 0) (fun _ => 0) =
      .displayed .fnan .fnan true ∧
    runPropagation (.div (.var "a") (.var "b")) (fun _ => 0) (fun _ => 0) ≠
      .calcError := by
  have h02 : ((0:ℚ) ^ (2:ℤ)) = 0 := by norm_num
  set e : Expression := .div (.var "a") (.var "b") with he
  have hvars : e.variablesOf = ["a", "b"] := by rw [he]; decide
  have hsubs : e.subs (fun _ => 0) = SymVal.nan := by
    rw [he]
    simp [Expression.subs, SymVal.symMul, SymVal.symPowz, h02]
  have hta : (e.diff "a").subs (fun _ => 0) = SymVal.nan := by
    rw [he]
    simp [Expression.diff, Expression.subs, SymVal.symMul, SymVal.symAdd,
      SymVal.symPowz, h02]
  have hsum : errSqSum e (fun _ => 0) (fun _ => 0) = SymVal.nan := by
    rw [errSqSum, hvars]
    simp only [List.foldl_cons, List.foldl_nil, hta]
    simp
  have h : runPropagation e (fun _ => 0) (fun _ => 0) = .displayed .fnan .fnan true := by
    rw [runPropagation, hsubs, hsum]
    rfl
  exact ⟨h, by simp [h]⟩

/-- C3 (amended): for `b = 0` and any NONZERO binding of `a` (and any
uncertainties), evaluating `a/b` fails with the caught calculation error —
`float()` of the `zoo` nominal value raises `TypeError`, which the inner
`except` reports — and nothing is silently displayed.  (With `a = 0` the
code instead silently displays NaN, as the counterexample shows.) -/
theorem claim_C3 (a ua ub : ℚ) (ha : a ≠ 0) :
    runPropagation (.div (.var "a") (.var "b"))
      (fun v => if v = "a" then a else 0)
      (fun v => if v = "a" then ua else ub) = .calcError := by
  have h02 : ((0:ℚ) ^ (2:ℤ)) = 0 := by norm_num
  set e : Expression := .div (.var "a") (.var "b") with he
  set valf : String → ℚ := fun v => if v = "a" then a else 0 with hv
  set uncf : String → ℚ := fun v => if v = "a" then ua else ub with hw
  have hvars : e.variablesOf = ["a", "b"] := by rw [he]; decide
  have hsubs : e.subs valf = SymVal.zoo := by
    rw [he, hv]
    simp [Expression.subs, SymVal.symMul, SymVal.symPowz, ha, h02]
  have hta : (e.diff "a").subs valf = SymVal.nan := by
    rw [he, hv]
    simp [Expression.diff, Expression.subs, SymVal.symMul, SymVal.symAdd,
      SymVal.symPowz, h02]
  have hsum : errSqSum e valf uncf = SymVal.nan := by
    rw [errSqSum, hvars]
    simp only [List.foldl_cons, List.foldl_nil, hta]
    simp
  rw [runPropagation, hsubs, hsum]
  rfl

/-- Witness for the amended C3 at `a = 1`: the evaluation errors out. -/
theorem claim_C3_witness :
    (1 : ℚ) ≠ 0 ∧
    runPropagation (.div (.var "a") (.var "b"))
      (fun v => if v = "a" then 1 else 0)
      (fun v => if v = "a" then 0 else 0) = .calcError :=
  ⟨by norm_num, claim_C3 1 0 0 (by norm_num)⟩

/-- C4: for every successful (numeric) evaluation, the percentage error is
shown — with value `propagated / |nominal| * 100` — exactly when the nominal
value is nonzero, and for a zero nominal value the percentage field is
absent (not zero, not NaN, not Infinity). -/
theorem claim_C4 (e : Expression) (val unc : String → ℚ) (q s : ℚ) (pct : Bool)
    (h : runPropagation e val unc = .displayed (.fnum q) (.fnum s) pct) :
    (q ≠ 0 → pct = true ∧
      percentageValue s q = Real.sqrt (s : ℝ) / |(q : ℝ)| * 100) ∧
    (q = 0 → pct = false) := by
  obtain ⟨-, -, hp⟩ := finishPropagation_displayed h
  subst hp
  constructor
  · intro hq
    exact ⟨by simp [hq], rfl⟩
  · intro hq
    simp [hq]

/-- Witness for C4 at `x - y` with `x = y = 5`: the nominal value is zero and
the percentage error is absent. -/
theorem claim_C4_witness :
    runPropagation (.sub (.var "x") (.var "y"))
      (fun _ => 5) (fun _ => 1/10) = .displayed (.fnum 0) (.fnum (1/50)) false ∧
    (((0:ℚ) ≠ 0 → (false : Bool) = true ∧
        percentageValue (1/50) 0 = Real.sqrt ((1/50 : ℚ) : ℝ) / |((0:ℚ) : ℝ)| * 100) ∧
      ((0:ℚ) = 0 → (false : Bool) = false)) := by
  have h : runPropagation (.sub (.var "x") (.var "y"))
      (fun _ => 5) (fun _ => 1/10) = .displayed (.fnum 0) (.fnum (1/50)) false := by
    simp only [runPropagation, finishPropagation, errSqSum, Expression.variablesOf,
      Expression.freeSymbols, Expression.subs, Expression.diff, sortNames, insertName,
      List.dedup, strLe, lexLe, List.foldr, List.foldl]
    simp [SymVal.symAdd, SymVal.symMul, SymVal.symPowz, SymVal.ne0, mathSqrtSym, pyFloatOf]
    norm_num
  exact ⟨h, claim_C4 _ _ _ 0 (1/50) false h⟩

/-- C6: for every input text that parses successfully, the variable list is
sorted ascending by name (adjacent comparisons in Python string order), is
free of duplicates, contains exactly the free variable names of the parsed
expression, and parsing the same text twice yields the same result. -/
theorem claim_C6 (s : String) (t : PTree) (h : sympify s = .ok t) :
    t.variablesP.Chain' (fun a b => strLe a b = true) ∧
    t.variablesP.Nodup ∧
    (∀ v, v ∈ t.variablesP ↔ v ∈ t.freeP) ∧
    sympify s = sympify s := by
  refine ⟨sortNames_chain _, sortNames_nodup (List.nodup_dedup _), fun v => ?_, rfl⟩
  rw [PTree.variablesP]
  exact mem_sortNames.trans (List.mem_dedup)

/-- Witness for C6 at the text `y*x + x`: it parses, and its variable list is
the sorted, de-duplicated `["x", "y"]`. -/
theorem claim_C6_witness :
    sympify "y*x + x" = .ok (.padd (.pmul (.pvar "y") (.pvar "x")) (.pvar "x")) ∧
    ((PTree.padd (.pmul (.pvar "y") (.pvar "x")) (.pvar "x")).variablesP.Chain'
        (fun a b => strLe a b = true) ∧
      (PTree.padd (.pmul (.pvar "y") (.pvar "x")) (.pvar "x")).variablesP.Nodup ∧
      (∀ v, v ∈ (PTree.padd (.pmul (.pvar "y") (.pvar "x")) (.pvar "x")).variablesP ↔
        v ∈ (PTree.padd (.pmul (.pvar "y") (.pvar "x")) (.pvar "x")).freeP) ∧
      sympify "y*x + x" = sympify "y*x + x") :=
  ⟨rfl, claim_C6 "y*x + x" _ rfl⟩

/-- C7: the claim says the Basic-Operation power row with A = 0 fails with a
reported "undefined" error and never terminates the run with an uncaught
exception.  The code computes `value_a ** power_n` (line 306) BEFORE its
`value_a != 0` guard (line 309), and the Basic Operations branch has no
`try/except`, so for A = 0 and a negative exponent Python raises an uncaught
`ZeroDivisionError` — the claim (and the spec's intent, including the code's
own "Cannot calculate when value is zero" message for the guarded path) is
right and the code is wrong.  The first conjunct evaluates the branch at the
failing input A = 0, n = -1; the second shows the guarded n = 2 path reports
an error instead of crashing. -/
theorem claim_C7 :
    runBasicPage .powB 0 0 0 0 (-1) = .uncaughtException .zeroDivisionError ∧
    runBasicPage .powB 0 0 0 0 2 = .unableShown := by
  constructor
  · simp [runBasicPage, pyPow]
  · simp [runBasicPage, pyPow]

/-- C8 (counterexample): the input `sin(x)` uses a function outside the
supported operator set `{+, -, *, /, ^}`, yet `sympify` parses it happily as
an applied function — parsing does not fail, contradicting the claim. -/
theorem claim_C8_counterexample :
    sympify "sin(x)" = .ok (.pcall "sin" [.pvar "x"]) ∧
    (sympify "sin(x)").isOk = true :=
  ⟨rfl, rfl⟩

/-- C8 (amended): for malformed input (mismatched parentheses, empty
expression, invalid operator sequences) parsing fails with a typed error that
carries the offending text, and parsing never raises an uncaught generic
failure; but functions outside the supported operator set (such as `sin`) are
accepted rather than rejected. -/
theorem claim_C8 :
    (∀ (s : String) (err : ParseError), sympify s = .error err → err.text = s) ∧
    sympify "" = .error ⟨""⟩ ∧
    sympify "(x" = .error ⟨"(x"⟩ ∧
    sympify "x +* y" = .error ⟨"x +* y"⟩ := by
  refine ⟨?_, rfl, rfl, rfl⟩
  intro s err h
  rw [sympify] at h
  split at h
  · injection h with h
    rw [← h]
  · split at h
    · exact absurd h (by simp)
    · injection h with h
      rw [← h]

/-- Witness for the amended C8 at the mismatched-parenthesis input `(x`. -/
theorem claim_C8_witness :
    sympify "(x" = .error ⟨"(x"⟩ ∧ (ParseError.mk "(x").text = "(x" :=
  ⟨rfl, claim_C8.1 "(x" ⟨"(x"⟩ rfl⟩

/-- C10 (amended): for every expression whose free-variable list is empty, the
Complex Function page path reaches `st.columns(0)` (line 361) before any
evaluation and the raised `StreamlitAPIException` is CAUGHT by the outer
`except` of line 438 — so the page shows the parse-error message: no
evaluation result and no typed evaluation error is produced, but the
exception is not uncaught as the claim states. -/
theorem claim_C10 (e : Expression) (store : List (String × Binding))
    (pressed : Bool) (h : e.variablesOf = []) :
    runComplexPage e store pressed = .parseErrorShown := by
  simp [runComplexPage, h]

/-- C10 (counterexample): the variable-free input `7` parses to a constant,
the page path produces the caught parse-error message, and the outcome is not
an uncaught exception — contradicting the claim that variable-free
expressions raise an uncaught exception. -/
theorem claim_C10_counterexample :
    sympify "7" = .ok (.num 7) ∧
    PTree.toExpr (.num 7) = some (.const 7) ∧
    runComplexPage (.const 7) [] true = .parseErrorShown ∧
    (runComplexPage (.const 7) [] true).isUncaught = false := by
  have h7 : litVal ['7'] [] = 7 := by
    norm_num [litVal, digitsVal, show '7'.toNat = 55 from rfl]
  refine ⟨?_, rfl, rfl, rfl⟩
  unfold sympify
  rw [show lexChars ("7".length + 1) "7".toList = some [Tok.tnum (litVal ['7'] [])] from rfl]
  rw [h7]
  rfl

/-- Witness for the amended C10: the constant expression `7` with a non-empty
store and no button press still yields the caught parse-error message. -/
theorem claim_C10_witness :
    (Expression.const 7).variablesOf = [] ∧
    runComplexPage (.const 7) [("x", ⟨2, 1/10⟩)] false = .parseErrorShown :=
  ⟨rfl, claim_C10 (.const 7) [("x", ⟨2, 1/10⟩)] false rfl⟩

/-- Finishing the propagation on a numeric result and a non-negative numeric
squared sum always displays, with the percentage error iff the result is
nonzero. -/
theorem finishPropagation_num {r S : ℚ} (hS : 0 ≤ S) :
    finishPropagation (.num r) (.num S) =
      .displayed (.fnum r) (.fnum S) (decide (r ≠ 0)) := by
  by_cases hz : r = 0 <;>
    simp [finishPropagation, mathSqrtSym, not_lt.mpr hS, SymVal.ne0, pyFloatOf, hz]

/-- C9: for all values A, B of either sign and non-negative uncertainties,
propagating `A+B` and `A-B` yields the identical squared propagated
uncertainty `ΔA² + ΔB²` — hence the identical propagated uncertainty
`sqrt(ΔA² + ΔB²)` — in both the Basic-Operation Calculator and the general
partial-derivative evaluator. -/
theorem claim_C9 (a b ua ub : ℚ) (hua : 0 ≤ ua) (hub : 0 ≤ ub) :
    runBasicPage .addB a ua b ub 0 =
      .basicShown (a + b) (ua^2 + ub^2) (decide (a + b ≠ 0)) ∧
    runBasicPage .subB a ua b ub 0 =
      .basicShown (a - b) (ua^2 + ub^2) (decide (a - b ≠ 0)) ∧
    runPropagation (exprOfOp .addB 0) (envAB a b) (uncAB ua ub) =
      .displayed (.fnum (a + b)) (.fnum (ua^2 + ub^2)) (decide (a + b ≠ 0)) ∧
    runPropagation (exprOfOp .subB 0) (envAB a b) (uncAB ua ub) =
      .displayed (.fnum (a - b)) (.fnum (ua^2 + ub^2)) (decide (a - b ≠ 0)) ∧
    Real.sqrt ((ua^2 + ub^2 : ℚ) : ℝ) = Real.sqrt ((ua:ℝ)^2 + (ub:ℝ)^2) := by
  have hS : (0:ℚ) ≤ ua^2 + ub^2 := by positivity
  have hvarsA : (exprOfOp .addB 0).variablesOf = ["A", "B"] := by decide
  have hvarsS : (exprOfOp .subB 0).variablesOf = ["A", "B"] := by decide
  refine ⟨rfl, rfl, ?_, ?_, ?_⟩
  · have hsubs : (exprOfOp .addB 0).subs (envAB a b) = .num (a + b) := by
      simp [exprOfOp, Expression.subs, envAB]
    have hsum : errSqSum (exprOfOp .addB 0) (envAB a b) (uncAB ua ub) =
        .num (ua^2 + ub^2) := by
      rw [errSqSum, hvarsA]
      simp [exprOfOp, Expression.diff, Expression.subs, envAB, uncAB,
        SymVal.symAdd, SymVal.symMul]
      try ring
    rw [runPropagation, hsubs, hsum, finishPropagation_num hS]
  · have hsubs : (exprOfOp .subB 0).subs (envAB a b) = .num (a - b) := by
      simp [exprOfOp, Expression.subs, envAB, SymVal.symAdd, SymVal.symMul]
      try ring
    have hsum : errSqSum (exprOfOp .subB 0) (envAB a b) (uncAB ua ub) =
        .num (ua^2 + ub^2) := by
      rw [errSqSum, hvarsS]
      simp [exprOfOp, Expression.diff, Expression.subs, envAB, uncAB,
        SymVal.symAdd, SymVal.symMul]
      try ring
    rw [runPropagation, hsubs, hsum, finishPropagation_num hS]
  · push_cast
    rfl

/-- Witness for C9 at `A = -2 ± 0.1`, `B = 3 ± 0.2`: all four propagations
agree on the squared uncertainty `1/100 + 4/100 = 1/20`. -/
theorem claim_C9_witness :
    (0:ℚ) ≤ 1/10 ∧ (0:ℚ) ≤ 1/5 ∧
    (runBasicPage .addB (-2) (1/10) 3 (1/5) 0 =
        .basicShown ((-2) + 3) ((1/10)^2 + (1/5)^2) (decide ((-2) + 3 ≠ (0:ℚ))) ∧
      runBasicPage .subB (-2) (1/10) 3 (1/5) 0 =
        .basicShown ((-2) - 3) ((1/10)^2 + (1/5)^2) (decide ((-2) - 3 ≠ (0:ℚ))) ∧
      runPropagation (exprOfOp .addB 0) (envAB (-2) 3) (uncAB (1/10) (1/5)) =
        .displayed (.fnum ((-2) + 3)) (.fnum ((1/10)^2 + (1/5)^2))
          (decide ((-2) + 3 ≠ (0:ℚ))) ∧
      runPropagation (exprOfOp .subB 0) (envAB (-2) 3) (uncAB (1/10) (1/5)) =
        .displayed (.fnum ((-2) - 3)) (.fnum ((1/10)^2 + (1/5)^2))
          (decide ((-2) - 3 ≠ (0:ℚ))) ∧
      Real.sqrt (((1/10)^2 + (1/5)^2 : ℚ) : ℝ) =
        Real.sqrt (((1/10 : ℚ):ℝ)^2 + ((1/5 : ℚ):ℝ)^2)) :=
  ⟨by norm_num, by norm_num,
    claim_C9 (-2) 3 (1/10) (1/5) (by norm_num) (by norm_num)⟩

@[simp]
theorem zpow_two_toNat (x : ℚ) : x ^ (2:ℤ) = x ^ (2:ℕ) := by
  rw [show ((2:ℤ)) = ((2:ℕ):ℤ) from rfl, zpow_natCast]

theorem runPropagation_mulAB (n : ℤ) (a b ua ub : ℚ) :
    runPropagation (exprOfOp .mulB n) (envAB a b) (uncAB ua ub) =
      .displayed (.fnum (a * b)) (.fnum ((b * ua)^2 + (a * ub)^2))
        (decide (a * b ≠ 0)) := by
  have hS : (0:ℚ) ≤ (b * ua)^2 + (a * ub)^2 := by positivity
  have hvars : (exprOfOp .mulB n).variablesOf = ["A", "B"] := rfl
  have hsubs : (exprOfOp .mulB n).subs (envAB a b) = .num (a * b) := by
    simp [exprOfOp, Expression.subs, envAB, SymVal.symMul]
  have hsum : errSqSum (exprOfOp .mulB n) (envAB a b) (uncAB ua ub) =
      .num ((b * ua)^2 + (a * ub)^2) := by
    rw [errSqSum, hvars]
    simp [exprOfOp, Expression.diff, Expression.subs, envAB, uncAB,
      SymVal.symAdd, SymVal.symMul]
    try ring
  rw [runPropagation, hsubs, hsum, finishPropagation_num hS]

theorem runPropagation_divAB (n : ℤ) (a b ua ub : ℚ) (hb : b ≠ 0) :
    runPropagation (exprOfOp .divB n) (envAB a b) (uncAB ua ub) =
      .displayed (.fnum (a / b)) (.fnum (ua^2 / b^2 + a^2 * ub^2 / b^4))
        (decide (a / b ≠ 0)) := by
  have hS : (0:ℚ) ≤ ua^2 / b^2 + a^2 * ub^2 / b^4 := by positivity
  have hvars : (exprOfOp .divB n).variablesOf = ["A", "B"] := rfl
  have hsubs : (exprOfOp .divB n).subs (envAB a b) = .num (a / b) := by
    simp [exprOfOp, Expression.subs, envAB, SymVal.symMul, SymVal.symPowz, hb]
    rw [div_eq_mul_inv]
  have hb2 : b^2 ≠ 0 := pow_ne_zero 2 hb
  have hb2z : b^(2:ℤ) ≠ 0 := zpow_ne_zero 2 hb
  have hsum : errSqSum (exprOfOp .divB n) (envAB a b) (uncAB ua ub) =
      .num (ua^2 / b^2 + a^2 * ub^2 / b^4) := by
    rw [errSqSum, hvars]
    simp [exprOfOp, Expression.diff, Expression.subs, envAB, uncAB,
      SymVal.symAdd, SymVal.symMul, SymVal.symPowz, hb, hb2, hb2z]
    field_simp
    ring
  rw [runPropagation, hsubs, hsum, finishPropagation_num hS]

theorem runPropagation_powA (n : ℤ) (a b ua ub : ℚ) (ha : a ≠ 0) :
    runPropagation (exprOfOp .powB n) (envAB a b) (uncAB ua ub) =
      .displayed (.fnum (a ^ n)) (.fnum (((n:ℚ) * a ^ (n - 1) * ua)^2))
        (decide (a ^ n ≠ 0)) := by
  have hS : (0:ℚ) ≤ ((n:ℚ) * a ^ (n - 1) * ua)^2 := by positivity
  have hvars : (exprOfOp .powB n).variablesOf = ["A"] := rfl
  have hsubs : (exprOfOp .powB n).subs (envAB a b) = .num (a ^ n) := by
    simp [exprOfOp, Expression.subs, envAB, SymVal.symPowz, ha]
  have hsum : errSqSum (exprOfOp .powB n) (envAB a b) (uncAB ua ub) =
      .num (((n:ℚ) * a ^ (n - 1) * ua)^2) := by
    rw [errSqSum, hvars]
    simp [exprOfOp, Expression.diff, Expression.subs, envAB, uncAB,
      SymVal.symAdd, SymVal.symMul, SymVal.symPowz, ha]
    try ring
  rw [runPropagation, hsubs, hsum, finishPropagation_num hS]

theorem runPropagation_addAB (n : ℤ) (a b ua ub : ℚ) :
    runPropagation (exprOfOp .addB n) (envAB a b) (uncAB ua ub) =
      .displayed (.fnum (a + b)) (.fnum (ua^2 + ub^2)) (decide (a + b ≠ 0)) := by
  have hS : (0:ℚ) ≤ ua^2 + ub^2 := by positivity
  have hvars : (exprOfOp .addB n).variablesOf = ["A", "B"] := rfl
  have hsubs : (exprOfOp .addB n).subs (envAB a b) = .num (a + b) := by
    simp [exprOfOp, Expression.subs, envAB]
  have hsum : errSqSum (exprOfOp .addB n) (envAB a b) (uncAB ua ub) =
      .num (ua^2 + ub^2) := by
    rw [errSqSum, hvars]
    simp [exprOfOp, Expression.diff, Expression.subs, envAB, uncAB,
      SymVal.symAdd, SymVal.symMul]
    try ring
  rw [runPropagation, hsubs, hsum, finishPropagation_num hS]

theorem runPropagation_subAB (n : ℤ) (a b ua ub : ℚ) :
    runPropagation (exprOfOp .subB n) (envAB a b) (uncAB ua ub) =
      .displayed (.fnum (a - b)) (.fnum (ua^2 + ub^2)) (decide (a - b ≠ 0)) := by
  have hS : (0:ℚ) ≤ ua^2 + ub^2 := by positivity
  have hvars : (exprOfOp .subB n).variablesOf = ["A", "B"] := rfl
  have hsubs : (exprOfOp .subB n).subs (envAB a b) = .num (a - b) := by
    simp [exprOfOp, Expression.subs, envAB, SymVal.symAdd, SymVal.symMul]
    try ring
  have hsum : errSqSum (exprOfOp .subB n) (envAB a b) (uncAB ua ub) =
      .num (ua^2 + ub^2) := by
    rw [errSqSum, hvars]
    simp [exprOfOp, Expression.diff, Expression.subs, envAB, uncAB,
      SymVal.symAdd, SymVal.symMul]
    try ring
  rw [runPropagation, hsubs, hsum, finishPropagation_num hS]

/-- C5: for operands with non-negative uncertainties and the nonzero-value
preconditions each row requires (A,B nonzero for multiplication and division,
A nonzero for power), every closed-form row of the Basic-Operation Calculator
displays exactly the same result value `r` and the same squared propagated
uncertainty `u` — hence the same propagated uncertainty `math.sqrt u` — as
the general partial-derivative evaluator applied to the corresponding
two-variable expression. -/
theorem claim_C5 (op : BasicOp) (a ua b ub : ℚ) (n : ℤ)
    (hua : 0 ≤ ua) (hub : 0 ≤ ub)
    (hmuldiv : op = .mulB ∨ op = .divB → a ≠ 0 ∧ b ≠ 0)
    (hpow : op = .powB → a ≠ 0) :
    ∃ (r u : ℚ) (p1 p2 : Bool),
      runBasicPage op a ua b ub n = .basicShown r u p1 ∧
      runPropagation (exprOfOp op n) (envAB a b) (uncAB ua ub) =
        .displayed (.fnum r) (.fnum u) p2 := by
  cases op with
  | addB =>
    exact ⟨a + b, ua^2 + ub^2, decide (a + b ≠ 0), decide (a + b ≠ 0),
      rfl, runPropagation_addAB n a b ua ub⟩
  | subB =>
    exact ⟨a - b, ua^2 + ub^2, decide (a - b ≠ 0), decide (a - b ≠ 0),
      rfl, runPropagation_subAB n a b ua ub⟩
  | mulB =>
    obtain ⟨ha, hb⟩ := hmuldiv (Or.inl rfl)
    refine ⟨a * b, (a * b)^2 * ((ua / |a|)^2 + (ub / |b|)^2),
      decide (a * b ≠ 0), decide (a * b ≠ 0), ?_, ?_⟩
    · simp [runBasicPage, ha, hb]
    · rw [runPropagation_mulAB,
        show (b * ua)^2 + (a * ub)^2 =
          (a * b)^2 * ((ua / |a|)^2 + (ub / |b|)^2) from by
            rw [div_pow, div_pow, sq_abs, sq_abs]
            field_simp
            ring]
  | divB =>
    obtain ⟨ha, hb⟩ := hmuldiv (Or.inr rfl)
    refine ⟨a / b, (a / b)^2 * ((ua / |a|)^2 + (ub / |b|)^2),
      decide (a / b ≠ 0), decide (a / b ≠ 0), ?_, ?_⟩
    · simp [runBasicPage, ha, hb]
    · rw [runPropagation_divAB n a b ua ub hb,
        show ua^2 / b^2 + a^2 * ub^2 / b^4 =
          (a / b)^2 * ((ua / |a|)^2 + (ub / |b|)^2) from by
            rw [div_pow, div_pow, div_pow, sq_abs, sq_abs]
            field_simp
            ring]
  | powB =>
    have ha := hpow rfl
    refine ⟨a ^ n, (a ^ n)^2 * (|(n:ℚ)| * (ua / |a|))^2,
      decide (a ^ n ≠ 0), decide (a ^ n ≠ 0), ?_, ?_⟩
    · simp [runBasicPage, pyPow, ha]
    · rw [runPropagation_powA n a b ua ub ha,
        show ((n:ℚ) * a ^ (n - 1) * ua)^2 =
          (a ^ n)^2 * (|(n:ℚ)| * (ua / |a|))^2 from by
            have hz : a ^ (n - 1) = a ^ n * a⁻¹ := zpow_sub_one₀ ha n
            rw [hz, mul_pow, mul_pow, mul_pow, mul_pow, div_pow, sq_abs, sq_abs]
            field_simp
            ring]


/-- Witness for C5 at the multiplication row with `A = 2 ± 0.1`,
`B = 3 ± 0.2`. -/
theorem claim_C5_witness :
    (0:ℚ) ≤ 1/10 ∧ (0:ℚ) ≤ 1/5 ∧ (2:ℚ) ≠ 0 ∧ (3:ℚ) ≠ 0 ∧
    ∃ (r u : ℚ) (p1 p2 : Bool),
      runBasicPage .mulB 2 (1/10) 3 (1/5) 0 = .basicShown r u p1 ∧
      runPropagation (exprOfOp .mulB 0) (envAB 2 3) (uncAB (1/10) (1/5)) =
        .displayed (.fnum r) (.fnum u) p2 :=
  ⟨by norm_num, by norm_num, by norm_num, by norm_num,
    claim_C5 .mulB 2 (1/10) 3 (1/5) 0 (by norm_num) (by norm_num)
      (fun _ => ⟨by norm_num, by norm_num⟩) (fun h => absurd h (by decide))⟩
